import Mathlib

/-!
Verification development for the Blockchain-Indexer repository.

The definitions below are shallow embeddings of the Rust source:
the job lifecycle state machine (src/modules/jobs/mod.rs), the
block persistence pipeline (src/modules/indexer/mod.rs) together with its
storage repositories (src/modules/storage/repo.rs), and the result phase of
the JSON-RPC client (src/modules/rpc/mod.rs).  SQL tables are modelled as
maps from their unique key to an optional row; the database clock NOW() is
an explicit integer tick passed to each operation.  All definitions follow
the source; the ones written from the words of the spec, for comparison
against the source, say so in their doc comment.
-/

namespace BlockchainIndexer

/-- Control actions of the jobs API (enum JobAction in modules/jobs/mod.rs). -/
inductive JobAction
  | start
  | stop
  | pause
  | resume
  | retry
  deriving DecidableEq, Repr

/-- Errors of the jobs service (enum JobsError in modules/jobs/mod.rs).  The
storage and serialization variants wrap infrastructure failures that are out
of scope of the embedding; the invalidTransition variant is what the spec
calls a StateConflict, and it carries the current status string. -/
inductive JobsError
  | notFound
  | invalidTransition (current : String)
  deriving DecidableEq, Repr

/-- Translation of transition_target (modules/jobs/mod.rs, lines 183 to 194):
a pure match on the pair of action and current status string; each arm of the
Rust match on a string literal becomes an equality test, and the wildcard arm
produces invalidTransition carrying the current status. -/
def transition_target (action : JobAction) (current : String) :
    Except JobsError String :=
  match action with
  | .start =>
    if current = "created" then .ok "running"
    else .error (.invalidTransition current)
  | .stop =>
    if current = "running" then .ok "created"
    else if current = "paused" then .ok "created"
    else if current = "failed" then .ok "created"
    else .error (.invalidTransition current)
  | .pause =>
    if current = "running" then .ok "paused"
    else .error (.invalidTransition current)
  | .resume =>
    if current = "paused" then .ok "running"
    else .error (.invalidTransition current)
  | .retry =>
    if current = "failed" then .ok "running"
    else .error (.invalidTransition current)

/-- Legal transition table of the spec (section 4.3), as triples of action,
source status and target status.  This is written from the words of the spec
so that the source function can be compared against it. -/
def legalTransitions : List (JobAction × String × String) :=
  [(.start, "created", "running"),
   (.pause, "running", "paused"),
   (.resume, "paused", "running"),
   (.stop, "running", "created"),
   (.stop, "paused", "created"),
   (.stop, "failed", "created"),
   (.retry, "failed", "running")]

/-- Pairs of action and source status that the spec table declares legal. -/
def legalPairs : List (JobAction × String) :=
  legalTransitions.map fun row => (row.1, row.2.1)

/-- Statuses observed by a sequence of transitions applied from an initial
status: the status after each action is collected, and the first illegal
action aborts the run with its error. -/
def runActions : List JobAction → String → Except JobsError (List String)
  | [], _ => .ok []
  | a :: rest, current =>
    match transition_target a current with
    | .ok next => (runActions rest next).map fun states => next :: states
    | .error e => .error e

/-- Configured job entry (struct JobConfig in modules/config/mod.rs). -/
structure JobConfig where
  job_id : String
  mode : String
  enabled : Bool
  addresses : List String
  deriving DecidableEq, Repr

/-- Row of the jobs table.  Timestamps are abstract integer ticks and the
config_snapshot column holds the serialized JobConfig, modelled by the config
value itself, since serde_json::to_value is injective on JobConfig. -/
structure JobRow where
  job_id : String
  mode : String
  status : String
  progress_height : Int
  config_snapshot : JobConfig
  updated_at : Option Int
  last_error : Option String
  deriving DecidableEq, Repr

/-- Jobs table keyed by the unique job_id column. -/
def JobsTable := String → Option JobRow

/-- Effect of one INSERT with ON CONFLICT (job_id) DO UPDATE issued by
sync_from_config (modules/jobs/mod.rs, lines 70 to 89): when the key is
absent, insert a fresh row with status created, progress 0 and no last_error;
when present, update only mode, config_snapshot and updated_at.  NOW() is the
tick now. -/
def upsertJob (now : Int) (table : JobsTable) (job : JobConfig) : JobsTable :=
  fun k =>
    if k = job.job_id then
      match table job.job_id with
      | none =>
        some { job_id := job.job_id, mode := job.mode, status := "created",
               progress_height := 0, config_snapshot := job,
               updated_at := some now, last_error := none }
      | some row =>
        some { row with
          mode := job.mode
          config_snapshot := job
          updated_at := some now }
    else table k

/-- Translation of JobsService::sync_from_config: the per-job upsert folded
over the configured jobs in order. -/
def sync_from_config (now : Int) (table : JobsTable) (jobs : List JobConfig) :
    JobsTable :=
  jobs.foldl (upsertJob now) table

/-- Last configuration entry for a given job id in a configuration list; with
the duplicate-free lists produced by config validation it is the unique
entry. -/
def lastCfgFor (k : String) : List JobConfig → Option JobConfig
  | [] => none
  | c :: rest =>
    match lastCfgFor k rest with
    | some c2 => some c2
    | none => if c.job_id = k then some c else none

/-- Row produced at key k by an upsert of cfg over an existing optional row:
fresh defaults when absent, otherwise only mode, config_snapshot and
updated_at replaced. -/
def combineRow (now : Int) (existing : Option JobRow) (cfg : JobConfig) :
    JobRow :=
  match existing with
  | none =>
    { job_id := cfg.job_id, mode := cfg.mode, status := "created",
      progress_height := 0, config_snapshot := cfg,
      updated_at := some now, last_error := none }
  | some row =>
    { row with
      mode := cfg.mode
      config_snapshot := cfg
      updated_at := some now }

/-- Translation of JobsService::transition (modules/jobs/mod.rs, lines 156 to
180): read the row by job_id (NotFound when absent), compute the target status
with transition_target, and only on success UPDATE status and updated_at and
re-read the row.  The result pairs the table after the call with the outcome,
so that the absence of a write on failure is part of the statement. -/
def transition (now : Int) (table : JobsTable) (job_id : String)
    (action : JobAction) : JobsTable × Except JobsError JobRow :=
  match table job_id with
  | none => (table, .error .notFound)
  | some row =>
    match transition_target action row.status with
    | .error e => (table, .error e)
    | .ok next =>
      let updated : JobsTable := fun k =>
        if k = job_id then
          (table k).map fun r => { r with status := next, updated_at := some now }
        else table k
      match updated job_id with
      | none => (updated, .error .notFound)
      | some r2 => (updated, .ok r2)

/-- Configuration entry used by closed witness statements. -/
def cfgA : JobConfig :=
  { job_id := "job-1", mode := "address_list", enabled := true,
    addresses := ["addr1"] }

/-- Job row used by closed witness statements: a paused job at height 42 with
a recorded error. -/
def row1 : JobRow :=
  { job_id := "job-1", mode := "all_addresses", status := "paused",
    progress_height := 42,
    config_snapshot :=
      { job_id := "job-1", mode := "all_addresses", enabled := true,
        addresses := [] },
    updated_at := some 1, last_error := some "boom" }

/-- One-row jobs table used by closed witness statements. -/
def table1 : JobsTable :=
  fun k => if k = "job-1" then some row1 else none

/-- Projection of a job row to the fields the spec requires syncs to
preserve. -/
def jobFrame (r : JobRow) : String × Int × Option String :=
  (r.status, r.progress_height, r.last_error)

/-- Script descriptor of a decoded output (struct RpcScriptPubKey in
modules/indexer/mod.rs): a singular resolved address and a legacy list of
candidate addresses, both optional. -/
structure RpcScriptPubKey where
  script_type : String
  hex : String
  address : Option String
  addresses : Option (List String)
  deriving DecidableEq, Repr

/-- Decoded output (struct RpcVout).  The decimal value field is an f64 in
the source; it is modelled as a rational, which carries the decoded decimal
value exactly. -/
structure RpcVout where
  n : Int
  value : ℚ
  script_pub_key : RpcScriptPubKey
  deriving DecidableEq, Repr

/-- Decoded input (struct RpcVin): the reference to the previous output is
absent for coinbase inputs. -/
structure RpcVin where
  txid : Option String
  vout : Option Int
  sequence : Int
  deriving DecidableEq, Repr

/-- Decoded transaction (struct RpcTransaction). -/
structure RpcTransaction where
  txid : String
  vin : List RpcVin
  vout : List RpcVout
  deriving DecidableEq, Repr

/-- Decoded block (struct RpcBlock): previousblockhash is optional. -/
structure RpcBlock where
  hash : String
  height : Int
  prev_hash : Option String
  time : Int
  tx : List RpcTransaction
  deriving DecidableEq, Repr

/-- Exact-arithmetic model of btc_to_sats (modules/indexer/mod.rs, lines 153
to 155): multiply by 10^8 and round half away from zero, the rounding mode of
the Rust f64 round method.  The IEEE-754 representation of the value and the
rounding of the f64 product are not part of the embedding. -/
def btc_to_sats (value : ℚ) : Int :=
  if 0 ≤ value then ⌊value * 100000000 + 1 / 2⌋
  else ⌈value * 100000000 - 1 / 2⌉

/-- Stand-in for the semi-structured meta column: the pipeline only ever
stores the empty JSON object there. -/
inductive MetaValue
  | emptyObject
  deriving DecidableEq, Repr

/-- Row of the blocks table (struct BlockRecord in modules/storage/repo.rs). -/
structure BlockRecord where
  height : Int
  hash : String
  prev_hash : String
  time : Int
  status : String
  meta : MetaValue
  deriving DecidableEq, Repr

/-- Row of the transactions table (struct TransactionRecord).  The decoded
column holds the serialized transaction, modelled by the transaction value
itself. -/
structure TransactionRecord where
  txid : String
  block_height : Option Int
  block_hash : Option String
  time : Int
  status : String
  decoded : RpcTransaction
  deriving DecidableEq, Repr

/-- Row of the tx_outputs table (struct TxOutputRecord). -/
structure TxOutputRecord where
  txid : String
  vout : Int
  value_sats : Int
  script_type : String
  address : Option String
  script_hex : String
  deriving DecidableEq, Repr

/-- Row of the tx_inputs table (struct TxInputRecord). -/
structure TxInputRecord where
  txid : String
  vin : Int
  prev_txid : String
  prev_vout : Int
  sequence : Int
  deriving DecidableEq, Repr

/-- Block row built by persist_block (modules/indexer/mod.rs, lines 67 to
74): an absent previousblockhash becomes the empty string through
unwrap_or_default, the status is the constant canonical and meta the empty
object. -/
def blockRecordOf (block : RpcBlock) : BlockRecord :=
  { height := block.height, hash := block.hash,
    prev_hash := block.prev_hash.getD "", time := block.time,
    status := "canonical", meta := .emptyObject }

/-- Transaction row built by persist_block (lines 78 to 85): block linkage
and timestamp are copied from the containing block, the status is the
constant confirmed. -/
def txRecordOf (block : RpcBlock) (tx : RpcTransaction) : TransactionRecord :=
  { txid := tx.txid, block_height := some block.height,
    block_hash := some block.hash, time := block.time,
    status := "confirmed", decoded := tx }

/-- Input row built for the entry at position idx of the vin list (lines 88
to 98): some row exactly when both the previous txid and the previous index
are present, none for coinbase inputs. -/
def inputRecordAt (tx : RpcTransaction) (idx : Nat) (vin : RpcVin) :
    Option TxInputRecord :=
  match vin.txid, vin.vout with
  | some prev_txid, some prev_vout =>
    some { txid := tx.txid, vin := (idx : Int), prev_txid := prev_txid,
           prev_vout := prev_vout, sequence := vin.sequence }
  | _, _ => none

/-- Input rows of one transaction, in vin order, indexed by position. -/
def inputRecordsOf (tx : RpcTransaction) : List TxInputRecord :=
  tx.vin.enum.filterMap fun p => inputRecordAt tx p.1 p.2

/-- Output row built by persist_block (lines 101 to 115): the address is the
singular field when present, otherwise the head of the legacy list. -/
def outputRecordOf (tx : RpcTransaction) (v : RpcVout) : TxOutputRecord :=
  { txid := tx.txid, vout := v.n, value_sats := btc_to_sats v.value,
    script_type := v.script_pub_key.script_type,
    address := v.script_pub_key.address.orElse fun _ =>
      v.script_pub_key.addresses.bind fun list => list.head?,
    script_hex := v.script_pub_key.hex }

/-- Address resolution rule in the words of the spec: the singular address
field wins when present, else the first element of the legacy address list
when that list is present and non-empty, else null.  Written from the spec
for comparison with the record the pipeline builds. -/
def addressSpec (spk : RpcScriptPubKey) : Option String :=
  match spk.address with
  | some a => some a
  | none =>
    match spk.addresses with
    | some list => if list.isEmpty then none else list.head?
    | none => none

/-- One SQL statement issued by persist_block, tagged with the row it
writes. -/
inductive WriteOp
  | blockUpsert (r : BlockRecord)
  | txUpsert (r : TransactionRecord)
  | inputInsert (r : TxInputRecord)
  | outputInsert (r : TxOutputRecord)
  deriving DecidableEq, Repr

/-- Input and output inserts of one transaction, in source order: all input
rows, then all output rows. -/
def rowOps (tx : RpcTransaction) : List WriteOp :=
  (inputRecordsOf tx).map WriteOp.inputInsert ++
    tx.vout.map fun v => WriteOp.outputInsert (outputRecordOf tx v)

/-- Statements issued for one transaction: its upsert, then its input
inserts, then its output inserts. -/
def txOps (block : RpcBlock) (tx : RpcTransaction) : List WriteOp :=
  WriteOp.txUpsert (txRecordOf block tx) :: rowOps tx

/-- Full statement sequence of persist_block (lines 61 to 121): the block
upsert first, then per transaction in source order its upsert followed by
its input and output inserts. -/
def persistTrace (block : RpcBlock) : List WriteOp :=
  WriteOp.blockUpsert (blockRecordOf block) ::
    (block.tx.map (txOps block)).flatten

/-- Transaction-upsert recognizer. -/
def isTxUpsert : WriteOp → Bool
  | .txUpsert _ => true
  | _ => false

/-- Recognizer of input and output inserts. -/
def isRowInsert : WriteOp → Bool
  | .inputInsert _ => true
  | .outputInsert _ => true
  | _ => false

/-- Ordering statement of the spec read literally: once any input or output
insert has been issued, no transaction upsert follows, so that all
transaction rows precede all input and output rows.  Written from the spec
for comparison with the trace the pipeline produces. -/
def txUpsertsBeforeRowInserts : List WriteOp → Bool
  | [] => true
  | op :: rest =>
    (!(isRowInsert op) || rest.all fun o => !(isTxUpsert o)) &&
      txUpsertsBeforeRowInserts rest

/-- State of the four storage tables, each keyed by the unique key its
repository upserts or inserts on. -/
@[ext]
structure DbState where
  blocks : String → Option BlockRecord
  transactions : String → Option TransactionRecord
  tx_outputs : String × Int → Option TxOutputRecord
  tx_inputs : String × Int → Option TxInputRecord

/-- Effect of one repository statement (modules/storage/repo.rs): block and
transaction upserts overwrite every non-key column at their key with ON
CONFLICT DO UPDATE, output and input inserts keep the existing row on a key
conflict with ON CONFLICT DO NOTHING. -/
def applyOp (s : DbState) : WriteOp → DbState
  | .blockUpsert r =>
    { s with blocks := fun k => if k = r.hash then some r else s.blocks k }
  | .txUpsert r =>
    { s with transactions := fun k =>
        if k = r.txid then some r else s.transactions k }
  | .outputInsert r =>
    { s with tx_outputs := fun k =>
        if k = (r.txid, r.vout) then
          match s.tx_outputs (r.txid, r.vout) with
          | some old => some old
          | none => some r
        else s.tx_outputs k }
  | .inputInsert r =>
    { s with tx_inputs := fun k =>
        if k = (r.txid, r.vin) then
          match s.tx_inputs (r.txid, r.vin) with
          | some old => some old
          | none => some r
        else s.tx_inputs k }

/-- Translation of IndexerPipeline::persist_block at the level of table
states: the statement sequence applied in order. -/
def persist_block (s : DbState) (block : RpcBlock) : DbState :=
  (persistTrace block).foldl applyOp s

/-- Last block upsert for a given hash in a statement list. -/
def lastBlockUpsertFor (k : String) : List WriteOp → Option BlockRecord
  | [] => none
  | op :: rest =>
    match lastBlockUpsertFor k rest with
    | some r => some r
    | none =>
      match op with
      | .blockUpsert r => if r.hash = k then some r else none
      | _ => none

/-- Last transaction upsert for a given txid in a statement list. -/
def lastTxUpsertFor (k : String) : List WriteOp → Option TransactionRecord
  | [] => none
  | op :: rest =>
    match lastTxUpsertFor k rest with
    | some r => some r
    | none =>
      match op with
      | .txUpsert r => if r.txid = k then some r else none
      | _ => none

/-- First output insert for a given key in a statement list. -/
def firstOutputInsertFor (k : String × Int) :
    List WriteOp → Option TxOutputRecord
  | [] => none
  | op :: rest =>
    match op with
    | .outputInsert r =>
      if (r.txid, r.vout) = k then some r else firstOutputInsertFor k rest
    | _ => firstOutputInsertFor k rest

/-- First input insert for a given key in a statement list. -/
def firstInputInsertFor (k : String × Int) :
    List WriteOp → Option TxInputRecord
  | [] => none
  | op :: rest =>
    match op with
    | .inputInsert r =>
      if (r.txid, r.vin) = k then some r else firstInputInsertFor k rest
    | _ => firstInputInsertFor k rest

/-- Empty database state used by closed witness statements. -/
def emptyDb : DbState :=
  { blocks := fun _ => none, transactions := fun _ => none,
    tx_outputs := fun _ => none, tx_inputs := fun _ => none }

/-- Two-transaction block used as a counterexample input: the first
transaction carries one spending input, so the pipeline issues its input
insert before the upsert of the second transaction. -/
def cexBlock : RpcBlock :=
  { hash := "b1", height := 1, prev_hash := some "b0", time := 1700000000,
    tx :=
      [{ txid := "t1",
         vin := [{ txid := some "t0", vout := some 0, sequence := 1 }],
         vout := [] },
       { txid := "t2", vin := [], vout := [] }] }

/-- One-transaction block used by closed witness statements: one coinbase
input, one spending input and one output carrying both address fields. -/
def wBlock : RpcBlock :=
  { hash := "b2", height := 2, prev_hash := some "b1", time := 1700000600,
    tx :=
      [{ txid := "t3",
         vin := [{ txid := none, vout := none, sequence := 0 },
                 { txid := some "t1", vout := some 0, sequence := 5 }],
         vout := [{ n := 0, value := 0,
                    script_pub_key :=
                      { script_type := "pubkeyhash", hex := "00",
                        address := some "addrA",
                        addresses := some ["addrB", "addrC"] } }] }] }

/-- Block with no previousblockhash used by closed witness statements. -/
def genesisBlock : RpcBlock :=
  { hash := "g", height := 0, prev_hash := none, time := 0, tx := [] }

/-- Errors of the RPC client (enum RpcError in modules/rpc/mod.rs) restricted
to the call path: the http variant wraps reqwest transport, status and decode
failures (the Transport class of the spec); the rpc variant carries
protocol-level messages (the Protocol class). -/
inductive RpcError
  | http (message : String)
  | rpc (message : String)
  deriving DecidableEq, Repr

/-- Error member of a JSON-RPC response (struct RpcResponseError). -/
structure RpcResponseError where
  message : String
  deriving DecidableEq, Repr

/-- Decoded JSON-RPC response envelope (struct RpcResponse). -/
structure RpcResponse (T : Type) where
  result : Option T
  error : Option RpcResponseError
  id : Option Nat
  deriving DecidableEq, Repr

/-- Outcome of the HTTP exchange of one call: the send can fail, the
error_for_status check can reject a non-success status, the body decode can
fail, or a decoded envelope is available.  The three failure forms are the
question-mark points of RpcClient::call that surface a reqwest error. -/
inductive HttpOutcome (T : Type)
  | sendFailure (message : String)
  | statusFailure (status : Nat) (message : String)
  | decodeFailure (message : String)
  | decoded (payload : RpcResponse T)
  deriving DecidableEq, Repr

/-- Result phase of RpcClient::call (modules/rpc/mod.rs, lines 72 to 101)
over the outcome of the HTTP exchange: reqwest failures map to the http
variant; in a decoded envelope a non-null error field wins and its message is
carried, an absent result under a null error is the protocol error with
message missing result, and otherwise the result is returned. -/
def callResult {T : Type} : HttpOutcome T → Except RpcError T
  | .sendFailure m => .error (.http m)
  | .statusFailure _ m => .error (.http m)
  | .decodeFailure m => .error (.http m)
  | .decoded payload =>
    match payload.error with
    | some e => .error (.rpc e.message)
    | none =>
      match payload.result with
      | some r => .ok r
      | none => .error (.rpc "missing result")

/-! Theorems about the job lifecycle. -/

theorem transition_target_ok_iff (a : JobAction) (s t : String) :
    transition_target a s = Except.ok t ↔ (a, s, t) ∈ legalTransitions := by
  cases a <;>
    simp only [transition_target, legalTransitions, List.mem_cons,
      List.not_mem_nil, or_false, Prod.mk.injEq] <;>
    split_ifs with h1 h2 h3 <;>
    simp_all <;>
    exact eq_comm

theorem transition_target_error_of_not_legal (a : JobAction) (s : String)
    (h : (a, s) ∉ legalPairs) :
    transition_target a s = Except.error (.invalidTransition s) := by
  cases a <;>
    simp only [legalPairs, legalTransitions, List.mem_map, List.mem_cons,
      List.not_mem_nil, or_false, Prod.mk.injEq, not_exists, not_and] at h <;>
    simp only [transition_target] <;>
    split_ifs with h1 h2 h3 <;>
    simp_all

/-- C1: transition_target succeeds exactly on the 7 pairs of the spec table,
fails with a StateConflict carrying the current status on every other pair,
and the scenario start, pause, resume, stop from a fresh created job yields
the statuses running, paused, running, created. -/
theorem C1_transition_table :
    (∀ a s t, transition_target a s = Except.ok t ↔ (a, s, t) ∈
      legalTransitions) ∧
    (∀ a s, (a, s) ∉ legalPairs →
      transition_target a s = Except.error (.invalidTransition s)) ∧
    runActions [.start, .pause, .resume, .stop] "created" =
      Except.ok ["running", "paused", "running", "created"] :=
  ⟨transition_target_ok_iff, transition_target_error_of_not_legal, rfl⟩

/-- Closed instance of C1: the pause action from failed is not in the table
and produces a StateConflict carrying the status failed. -/
theorem C1_transition_table_witness :
    transition_target .pause "failed" =
      Except.error (.invalidTransition "failed") :=
  C1_transition_table.2.1 .pause "failed" (by decide)

theorem lastCfgFor_job_id (k : String) (jobs : List JobConfig)
    (cfg : JobConfig) (h : lastCfgFor k jobs = some cfg) : cfg.job_id = k := by
  induction jobs with
  | nil => simp [lastCfgFor] at h
  | cons c rest ih =>
    simp only [lastCfgFor] at h
    cases h2 : lastCfgFor k rest with
    | some c2 =>
      rw [h2] at h
      exact ih (h2.trans (congrArg some (Option.some.inj h)))
    | none =>
      rw [h2] at h
      by_cases hc : c.job_id = k
      · simp [hc] at h; rw [← h]; exact hc
      · simp [hc] at h

theorem combineRow_absorb (now1 now2 : Int) (existing : Option JobRow)
    (c1 c2 : JobConfig) (h : c1.job_id = c2.job_id) :
    combineRow now2 (some (combineRow now1 existing c1)) c2 =
      combineRow now2 existing c2 := by
  cases existing <;> simp [combineRow, h]

theorem upsertJob_apply_self (now : Int) (table : JobsTable)
    (job : JobConfig) (k : String) (h : job.job_id = k) :
    upsertJob now table job k = some (combineRow now (table k) job) := by
  subst h
  simp only [upsertJob]
  rw [if_pos trivial]
  cases table job.job_id <;> rfl

theorem upsertJob_apply_other (now : Int) (table : JobsTable)
    (job : JobConfig) (k : String) (h : ¬job.job_id = k) :
    upsertJob now table job k = table k := by
  simp only [upsertJob]
  exact if_neg fun hk => h hk.symm

/-- Keys with no configuration entry are untouched by sync_from_config. -/
theorem sync_from_config_apply_none (now : Int) (jobs : List JobConfig)
    (table : JobsTable) (k : String) (h : lastCfgFor k jobs = none) :
    sync_from_config now table jobs k = table k := by
  induction jobs generalizing table with
  | nil => rfl
  | cons c rest ih =>
    simp only [lastCfgFor] at h
    cases h2 : lastCfgFor k rest with
    | some c2 => rw [h2] at h; exact absurd h (by simp)
    | none =>
      rw [h2] at h
      have hc : ¬c.job_id = k := by
        intro hc
        rw [if_pos hc] at h
        exact absurd h (by simp)
      show sync_from_config now (upsertJob now table c) rest k = table k
      rw [ih (upsertJob now table c) h2]
      exact upsertJob_apply_other now table c k hc

/-- Keys with a configuration entry end up as the upsert of their last entry
over the original row: fresh defaults when the key was absent, otherwise only
mode, config_snapshot and updated_at replaced. -/
theorem sync_from_config_apply_some (now : Int) (jobs : List JobConfig)
    (table : JobsTable) (k : String) (cfg : JobConfig)
    (h : lastCfgFor k jobs = some cfg) :
    sync_from_config now table jobs k = some (combineRow now (table k) cfg) := by
  induction jobs generalizing table with
  | nil => exact absurd h (by simp [lastCfgFor])
  | cons c rest ih =>
    simp only [lastCfgFor] at h
    cases h2 : lastCfgFor k rest with
    | some c2 =>
      rw [h2] at h
      have hcfg : c2 = cfg := by simpa using h
      subst hcfg
      have hid : c2.job_id = k := lastCfgFor_job_id k rest c2 h2
      show sync_from_config now (upsertJob now table c) rest k = _
      rw [ih (upsertJob now table c) h2]
      by_cases hc : c.job_id = k
      · rw [upsertJob_apply_self now table c k hc,
          combineRow_absorb now now (table k) c c2 (hc.trans hid.symm)]
      · rw [upsertJob_apply_other now table c k hc]
    | none =>
      rw [h2] at h
      have hc : c.job_id = k := by
        by_contra hc
        rw [if_neg hc] at h
        exact absurd h (by simp)
      have hcfg : c = cfg := by
        rw [if_pos hc] at h
        simpa using h
      subst hcfg
      show sync_from_config now (upsertJob now table c) rest k = _
      rw [sync_from_config_apply_none now rest (upsertJob now table c) k h2]
      exact upsertJob_apply_self now table c k hc

/-- C3: a sync over a present row updates only mode, config_snapshot and
updated_at, preserving status, progress_height and last_error; and re-applying
the same configuration list changes none of status, progress_height or
last_error at any key. -/
theorem C3_sync_preserves_status_and_progress :
    (∀ now table jobs k cfg row, lastCfgFor k jobs = some cfg →
      table k = some row →
      sync_from_config now table jobs k =
        some { row with
          mode := cfg.mode
          config_snapshot := cfg
          updated_at := some now }) ∧
    (∀ now now2 table jobs k,
      (sync_from_config now2 (sync_from_config now table jobs) jobs k).map
          jobFrame =
        (sync_from_config now table jobs k).map jobFrame) := by
  constructor
  · intro now table jobs k cfg row hcfg hrow
    rw [sync_from_config_apply_some now jobs table k cfg hcfg, hrow]
    rfl
  · intro now now2 table jobs k
    cases hcfg : lastCfgFor k jobs with
    | none =>
      rw [sync_from_config_apply_none now2 jobs _ k hcfg]
    | some cfg =>
      rw [sync_from_config_apply_some now2 jobs _ k cfg hcfg,
        sync_from_config_apply_some now jobs table k cfg hcfg,
        combineRow_absorb now now2 (table k) cfg cfg rfl]
      cases table k <;> rfl

/-- Closed instance of C3: syncing a one-entry configuration over a table
holding a paused job at height 42 keeps status paused, progress 42 and the
recorded error while replacing mode and snapshot, and a second identical
sync changes none of those fields. -/
theorem C3_sync_preserves_status_and_progress_witness :
    (sync_from_config 7 table1 [cfgA] "job-1" =
      some { row1 with
        mode := cfgA.mode
        config_snapshot := cfgA
        updated_at := some 7 }) ∧
    ((sync_from_config 9 (sync_from_config 7 table1 [cfgA]) [cfgA]
        "job-1").map jobFrame =
      (sync_from_config 7 table1 [cfgA] "job-1").map jobFrame) :=
  ⟨C3_sync_preserves_status_and_progress.1 7 table1 [cfgA] "job-1" cfgA row1
      rfl rfl,
   C3_sync_preserves_status_and_progress.2 7 9 table1 [cfgA] "job-1"⟩

/-- C4: an action whose pair with the current status is not in the legal
table leaves the jobs table untouched and reports a StateConflict carrying
the current status. -/
theorem C4_illegal_transition_performs_no_write (now : Int)
    (table : JobsTable) (job_id : String) (action : JobAction) (row : JobRow)
    (hrow : table job_id = some row)
    (hill : (action, row.status) ∉ legalPairs) :
    transition now table job_id action =
      (table, Except.error (.invalidTransition row.status)) := by
  simp only [transition, hrow]
  rw [transition_target_error_of_not_legal action row.status hill]

/-- Closed instance of C4: pause on a created job fails with a StateConflict
carrying created and the table is returned unchanged. -/
theorem C4_illegal_transition_performs_no_write_witness :
    transition 5 (fun k => if k = "job-2" then
        some { job_id := "job-2", mode := "all_addresses", status := "created",
               progress_height := 0, config_snapshot := cfgA,
               updated_at := none, last_error := none }
      else none) "job-2" .pause =
      ((fun k => if k = "job-2" then
        some { job_id := "job-2", mode := "all_addresses", status := "created",
               progress_height := 0, config_snapshot := cfgA,
               updated_at := none, last_error := none }
      else none), Except.error (.invalidTransition "created")) :=
  C4_illegal_transition_performs_no_write 5 _ "job-2" .pause
    { job_id := "job-2", mode := "all_addresses", status := "created",
      progress_height := 0, config_snapshot := cfgA,
      updated_at := none, last_error := none } rfl (by decide)

/-! Theorems about the persistence pipeline. -/

theorem foldl_applyOp_blocks (l : List WriteOp) (s : DbState) (k : String) :
    (l.foldl applyOp s).blocks k =
      match lastBlockUpsertFor k l with
      | some r => some r
      | none => s.blocks k := by
  induction l generalizing s with
  | nil => rfl
  | cons op rest ih =>
    show (rest.foldl applyOp (applyOp s op)).blocks k = _
    rw [ih]
    simp only [lastBlockUpsertFor]
    cases h2 : lastBlockUpsertFor k rest with
    | some r => rfl
    | none =>
      cases op with
      | blockUpsert r =>
        by_cases hk : r.hash = k
        · simp [applyOp, hk]
        · have hk2 : ¬k = r.hash := fun h => hk h.symm
          simp [applyOp, hk, hk2]
      | txUpsert r => rfl
      | inputInsert r => rfl
      | outputInsert r => rfl

theorem foldl_applyOp_transactions (l : List WriteOp) (s : DbState)
    (k : String) :
    (l.foldl applyOp s).transactions k =
      match lastTxUpsertFor k l with
      | some r => some r
      | none => s.transactions k := by
  induction l generalizing s with
  | nil => rfl
  | cons op rest ih =>
    show (rest.foldl applyOp (applyOp s op)).transactions k = _
    rw [ih]
    simp only [lastTxUpsertFor]
    cases h2 : lastTxUpsertFor k rest with
    | some r => rfl
    | none =>
      cases op with
      | txUpsert r =>
        by_cases hk : r.txid = k
        · simp [applyOp, hk]
        · have hk2 : ¬k = r.txid := fun h => hk h.symm
          simp [applyOp, hk, hk2]
      | blockUpsert r => rfl
      | inputInsert r => rfl
      | outputInsert r => rfl

theorem foldl_applyOp_outputs (l : List WriteOp) (s : DbState)
    (k : String × Int) :
    (l.foldl applyOp s).tx_outputs k =
      match s.tx_outputs k with
      | some old => some old
      | none => firstOutputInsertFor k l := by
  induction l generalizing s with
  | nil =>
    show s.tx_outputs k = _
    cases s.tx_outputs k <;> rfl
  | cons op rest ih =>
    show (rest.foldl applyOp (applyOp s op)).tx_outputs k = _
    rw [ih]
    cases op with
    | outputInsert r =>
      simp only [applyOp, firstOutputInsertFor]
      by_cases hk : k = (r.txid, r.vout)
      · rw [if_pos hk, if_pos hk.symm, hk]
        cases s.tx_outputs (r.txid, r.vout) <;> rfl
      · rw [if_neg hk, if_neg fun h => hk h.symm]
    | blockUpsert r => rfl
    | txUpsert r => rfl
    | inputInsert r => rfl

theorem foldl_applyOp_inputs (l : List WriteOp) (s : DbState)
    (k : String × Int) :
    (l.foldl applyOp s).tx_inputs k =
      match s.tx_inputs k with
      | some old => some old
      | none => firstInputInsertFor k l := by
  induction l generalizing s with
  | nil =>
    show s.tx_inputs k = _
    cases s.tx_inputs k <;> rfl
  | cons op rest ih =>
    show (rest.foldl applyOp (applyOp s op)).tx_inputs k = _
    rw [ih]
    cases op with
    | inputInsert r =>
      simp only [applyOp, firstInputInsertFor]
      by_cases hk : k = (r.txid, r.vin)
      · rw [if_pos hk, if_pos hk.symm, hk]
        cases s.tx_inputs (r.txid, r.vin) <;> rfl
      · rw [if_neg hk, if_neg fun h => hk h.symm]
    | blockUpsert r => rfl
    | txUpsert r => rfl
    | outputInsert r => rfl

theorem foldl_applyOp_idem (l : List WriteOp) (s : DbState) :
    l.foldl applyOp (l.foldl applyOp s) = l.foldl applyOp s := by
  ext k
  · rw [foldl_applyOp_blocks, foldl_applyOp_blocks]
    cases lastBlockUpsertFor k l <;> rfl
  · rw [foldl_applyOp_transactions, foldl_applyOp_transactions]
    cases lastTxUpsertFor k l <;> rfl
  · rw [foldl_applyOp_outputs, foldl_applyOp_outputs]
    cases s.tx_outputs k with
    | some old => rfl
    | none => cases firstOutputInsertFor k l <;> rfl
  · rw [foldl_applyOp_inputs, foldl_applyOp_inputs]
    cases s.tx_inputs k with
    | some old => rfl
    | none => cases firstInputInsertFor k l <;> rfl

/-- C7: persist_block is idempotent: re-applying the same block from the
state the first application produced yields exactly that state, for every
starting state, so no duplicate output or input rows appear and block and
transaction rows are unchanged by the second call. -/
theorem C7_persist_block_idempotent (s : DbState) (block : RpcBlock) :
    persist_block (persist_block s block) block = persist_block s block :=
  foldl_applyOp_idem (persistTrace block) s

/-- C2 counterexample: on a block with two transactions whose first
transaction carries a spending input, the pipeline issues that input insert
before the upsert of the second transaction, so it is false that every
transaction upsert precedes every input or output insert. -/
theorem C2_order_counterexample :
    cexBlock.tx.length = 2 ∧
    txUpsertsBeforeRowInserts (persistTrace cexBlock) = false :=
  ⟨rfl, rfl⟩

theorem getElem?_append_cons_middle {α : Type} (p : List α) (a : α)
    (m₁ : List α) (b : α) (m₂ : List α) :
    ∃ i j : Nat, i < j ∧ (p ++ a :: (m₁ ++ b :: m₂))[i]? = some a ∧
      (p ++ a :: (m₁ ++ b :: m₂))[j]? = some b := by
  refine ⟨p.length, p.length + 1 + m₁.length, by omega, ?_, ?_⟩
  · rw [List.getElem?_append_right (Nat.le_refl p.length), Nat.sub_self]
    exact List.getElem?_cons_zero
  · rw [List.getElem?_append_right
      (by omega : p.length ≤ p.length + 1 + m₁.length)]
    have h1 : p.length + 1 + m₁.length - p.length = m₁.length + 1 := by omega
    rw [h1, List.getElem?_cons_succ,
      List.getElem?_append_right (Nat.le_refl m₁.length), Nat.sub_self]
    exact List.getElem?_cons_zero

/-- C2 amended: the block upsert is the first statement of persist_block,
and the upsert of each transaction precedes every input and output insert of
that same transaction; transaction upserts of later transactions come after
the input and output inserts of earlier ones, per transaction in source
order. -/
theorem C2_write_order (block : RpcBlock) (tx : RpcTransaction)
    (htx : tx ∈ block.tx) (op : WriteOp) (hop : op ∈ rowOps tx) :
    (persistTrace block)[0]? = some (.blockUpsert (blockRecordOf block)) ∧
    ∃ i j : Nat, i < j ∧
      (persistTrace block)[i]? = some (.txUpsert (txRecordOf block tx)) ∧
      (persistTrace block)[j]? = some op := by
  refine ⟨by rw [persistTrace]; exact List.getElem?_cons_zero, ?_⟩
  obtain ⟨s, t, hst⟩ := List.append_of_mem htx
  obtain ⟨m₁, m₂, hm⟩ := List.append_of_mem hop
  have hdecomp : persistTrace block =
      (WriteOp.blockUpsert (blockRecordOf block) ::
        (s.map (txOps block)).flatten) ++
        WriteOp.txUpsert (txRecordOf block tx) ::
          (m₁ ++ op :: (m₂ ++ (t.map (txOps block)).flatten)) := by
    rw [persistTrace, hst]
    simp [txOps, hm, List.append_assoc]
  rw [hdecomp]
  exact getElem?_append_cons_middle _ _ _ _ _

/-- Closed instance of the amended C2: in the counterexample block the upsert
of the first transaction precedes its own input insert, and the block upsert
comes first. -/
theorem C2_write_order_witness :
    (persistTrace cexBlock)[0]? =
      some (.blockUpsert (blockRecordOf cexBlock)) ∧
    ∃ i j : Nat, i < j ∧
      (persistTrace cexBlock)[i]? = some (.txUpsert (txRecordOf cexBlock
        { txid := "t1",
          vin := [{ txid := some "t0", vout := some 0, sequence := 1 }],
          vout := [] })) ∧
      (persistTrace cexBlock)[j]? = some (.inputInsert
        { txid := "t1", vin := 0, prev_txid := "t0", prev_vout := 0,
          sequence := 1 }) :=
  C2_write_order cexBlock
    { txid := "t1",
      vin := [{ txid := some "t0", vout := some 0, sequence := 1 }],
      vout := [] } (by decide)
    (.inputInsert
      { txid := "t1", vin := 0, prev_txid := "t0", prev_vout := 0,
        sequence := 1 }) (by decide)

theorem mem_persistTrace_of_mem_txOps (block : RpcBlock)
    (tx : RpcTransaction) (htx : tx ∈ block.tx) (op : WriteOp)
    (hop : op ∈ txOps block tx) : op ∈ persistTrace block := by
  rw [persistTrace, List.mem_cons]
  right
  rw [List.mem_flatten]
  exact ⟨txOps block tx, List.mem_map_of_mem (txOps block) htx, hop⟩

theorem outputInsert_mem_persistTrace (block : RpcBlock)
    (tx : RpcTransaction) (htx : tx ∈ block.tx) (v : RpcVout)
    (hv : v ∈ tx.vout) :
    WriteOp.outputInsert (outputRecordOf tx v) ∈ persistTrace block := by
  apply mem_persistTrace_of_mem_txOps block tx htx
  rw [txOps, List.mem_cons]
  right
  rw [rowOps, List.mem_append]
  right
  exact List.mem_map_of_mem (fun v => WriteOp.outputInsert (outputRecordOf tx v)) hv

theorem inputInsert_mem_persistTrace (block : RpcBlock)
    (tx : RpcTransaction) (htx : tx ∈ block.tx) (r : TxInputRecord)
    (hr : r ∈ inputRecordsOf tx) :
    WriteOp.inputInsert r ∈ persistTrace block := by
  apply mem_persistTrace_of_mem_txOps block tx htx
  rw [txOps, List.mem_cons]
  right
  rw [rowOps, List.mem_append]
  left
  exact List.mem_map_of_mem WriteOp.inputInsert hr

theorem resolve_eq_addressSpec (spk : RpcScriptPubKey) :
    (spk.address.orElse fun _ =>
      spk.addresses.bind fun list => list.head?) = addressSpec spk := by
  obtain ⟨st, hx, addr, addrs⟩ := spk
  cases addr with
  | some a => rfl
  | none =>
    cases addrs with
    | none => rfl
    | some list => cases list <;> rfl

/-- C6: every output row persist_block writes is issued to the store, and its
address is resolved as the spec states: the singular address field wins even
when the legacy list is also present, else the first element of the legacy
list when present and non-empty, else null. -/
theorem C6_address_resolution (block : RpcBlock) (tx : RpcTransaction)
    (htx : tx ∈ block.tx) (v : RpcVout) (hv : v ∈ tx.vout) :
    WriteOp.outputInsert (outputRecordOf tx v) ∈ persistTrace block ∧
    (outputRecordOf tx v).address = addressSpec v.script_pub_key :=
  ⟨outputInsert_mem_persistTrace block tx htx v hv,
   resolve_eq_addressSpec v.script_pub_key⟩

/-- Closed instance of C6: in the witness block the output carries both the
singular address field and a two-element legacy list, and the persisted row
resolves to the singular address. -/
theorem C6_address_resolution_witness :
    WriteOp.outputInsert (outputRecordOf
      { txid := "t3",
        vin := [{ txid := none, vout := none, sequence := 0 },
                { txid := some "t1", vout := some 0, sequence := 5 }],
        vout := [{ n := 0, value := 0,
                   script_pub_key :=
                     { script_type := "pubkeyhash", hex := "00",
                       address := some "addrA",
                       addresses := some ["addrB", "addrC"] } }] }
      { n := 0, value := 0,
        script_pub_key :=
          { script_type := "pubkeyhash", hex := "00",
            address := some "addrA",
            addresses := some ["addrB", "addrC"] } }) ∈
      persistTrace wBlock ∧
    (outputRecordOf
      { txid := "t3",
        vin := [{ txid := none, vout := none, sequence := 0 },
                { txid := some "t1", vout := some 0, sequence := 5 }],
        vout := [{ n := 0, value := 0,
                   script_pub_key :=
                     { script_type := "pubkeyhash", hex := "00",
                       address := some "addrA",
                       addresses := some ["addrB", "addrC"] } }] }
      { n := 0, value := 0,
        script_pub_key :=
          { script_type := "pubkeyhash", hex := "00",
            address := some "addrA",
            addresses := some ["addrB", "addrC"] } }).address =
      addressSpec
        { script_type := "pubkeyhash", hex := "00",
          address := some "addrA", addresses := some ["addrB", "addrC"] } :=
  C6_address_resolution wBlock _ (by decide) _ (by decide)

theorem mem_inputRecordsOf_iff (tx : RpcTransaction) (r : TxInputRecord) :
    r ∈ inputRecordsOf tx ↔
      ∃ i vin, tx.vin[i]? = some vin ∧ inputRecordAt tx i vin = some r := by
  simp only [inputRecordsOf, List.mem_filterMap]
  constructor
  · rintro ⟨⟨i, vin⟩, hmem, hrec⟩
    exact ⟨i, vin, List.mem_enum_iff_getElem?.mp hmem, hrec⟩
  · rintro ⟨i, vin, hget, hrec⟩
    exact ⟨(i, vin), List.mem_enum_iff_getElem?.mpr hget, hrec⟩

theorem inputRecordAt_some (tx : RpcTransaction) (i : Nat) (vin : RpcVin)
    (r : TxInputRecord) (h : inputRecordAt tx i vin = some r) :
    vin.txid = some r.prev_txid ∧ vin.vout = some r.prev_vout ∧
      r.txid = tx.txid ∧ r.vin = (i : Int) ∧ r.sequence = vin.sequence := by
  cases hpt : vin.txid with
  | none => simp [inputRecordAt, hpt] at h
  | some pt =>
    cases hpv : vin.vout with
    | none => simp [inputRecordAt, hpt, hpv] at h
    | some pv =>
      simp only [inputRecordAt, hpt, hpv] at h
      obtain rfl := Option.some.inj h
      exact ⟨rfl, rfl, rfl, rfl, rfl⟩

/-- C9: persist_block issues every input row of a transaction; a vin entry
yields a row exactly when it carries both a previous txid and a previous
output index (coinbase entries yield none); and the row of the entry at
position i is keyed by the transaction txid paired with i and carries the
referenced output and the sequence number. -/
theorem C9_input_rows (block : RpcBlock) (tx : RpcTransaction)
    (htx : tx ∈ block.tx) :
    (∀ r, r ∈ inputRecordsOf tx →
      WriteOp.inputInsert r ∈ persistTrace block) ∧
    (∀ (i : Nat) (vin : RpcVin), tx.vin[i]? = some vin →
      ((vin.txid.isSome ∧ vin.vout.isSome) ↔
        ∃ r, r ∈ inputRecordsOf tx ∧ r.vin = (i : Int))) ∧
    (∀ (i : Nat) (vin : RpcVin) (r : TxInputRecord),
      tx.vin[i]? = some vin → r ∈ inputRecordsOf tx →
      r.vin = (i : Int) →
      r.txid = tx.txid ∧ vin.txid = some r.prev_txid ∧
        vin.vout = some r.prev_vout ∧ r.sequence = vin.sequence) := by
  refine ⟨fun r hr => inputInsert_mem_persistTrace block tx htx r hr, ?_, ?_⟩
  · intro i vin hget
    constructor
    · rintro ⟨hpt, hpv⟩
      obtain ⟨pt, hpt⟩ := Option.isSome_iff_exists.mp hpt
      obtain ⟨pv, hpv⟩ := Option.isSome_iff_exists.mp hpv
      refine ⟨{ txid := tx.txid, vin := (i : Int), prev_txid := pt,
                prev_vout := pv, sequence := vin.sequence }, ?_, rfl⟩
      rw [mem_inputRecordsOf_iff]
      exact ⟨i, vin, hget, by simp [inputRecordAt, hpt, hpv]⟩
    · rintro ⟨r, hr, hri⟩
      obtain ⟨i2, vin2, hget2, hrec2⟩ := (mem_inputRecordsOf_iff tx r).mp hr
      obtain ⟨hpt2, hpv2, _, hvin2, _⟩ := inputRecordAt_some tx i2 vin2 r hrec2
      have hi : i2 = i := by
        have := hvin2.symm.trans hri
        exact_mod_cast this
      subst hi
      have hvv : vin2 = vin := Option.some.inj (hget2.symm.trans hget)
      subst hvv
      exact ⟨by simp [hpt2], by simp [hpv2]⟩
  · intro i vin r hget hr hri
    obtain ⟨i2, vin2, hget2, hrec2⟩ := (mem_inputRecordsOf_iff tx r).mp hr
    obtain ⟨hpt2, hpv2, htxid, hvin2, hseq⟩ :=
      inputRecordAt_some tx i2 vin2 r hrec2
    have hi : i2 = i := by
      have := hvin2.symm.trans hri
      exact_mod_cast this
    subst hi
    have hvv : vin2 = vin := Option.some.inj (hget2.symm.trans hget)
    subst hvv
    exact ⟨htxid, hpt2, hpv2, hseq⟩

/-- Closed instance of C9 at the witness block: its transaction has a
coinbase entry at position 0 and a spending entry at position 1. -/
theorem C9_input_rows_witness :
    (∀ r, r ∈ inputRecordsOf
        { txid := "t3",
          vin := [{ txid := none, vout := none, sequence := 0 },
                  { txid := some "t1", vout := some 0, sequence := 5 }],
          vout := [{ n := 0, value := 0,
                     script_pub_key :=
                       { script_type := "pubkeyhash", hex := "00",
                         address := some "addrA",
                         addresses := some ["addrB", "addrC"] } }] } →
      WriteOp.inputInsert r ∈ persistTrace wBlock) ∧
    (∀ (i : Nat) (vin : RpcVin),
      ({ txid := "t3",
         vin := [{ txid := none, vout := none, sequence := 0 },
                 { txid := some "t1", vout := some 0, sequence := 5 }],
         vout := [{ n := 0, value := 0,
                    script_pub_key :=
                      { script_type := "pubkeyhash", hex := "00",
                        address := some "addrA",
                        addresses := some ["addrB", "addrC"] } }] } :
        RpcTransaction).vin[i]? = some vin →
      ((vin.txid.isSome ∧ vin.vout.isSome) ↔
        ∃ r, r ∈ inputRecordsOf
            { txid := "t3",
              vin := [{ txid := none, vout := none, sequence := 0 },
                      { txid := some "t1", vout := some 0, sequence := 5 }],
              vout := [{ n := 0, value := 0,
                         script_pub_key :=
                           { script_type := "pubkeyhash", hex := "00",
                             address := some "addrA",
                             addresses := some ["addrB", "addrC"] } }] } ∧
          r.vin = (i : Int))) ∧
    (∀ (i : Nat) (vin : RpcVin) (r : TxInputRecord),
      ({ txid := "t3",
         vin := [{ txid := none, vout := none, sequence := 0 },
                 { txid := some "t1", vout := some 0, sequence := 5 }],
         vout := [{ n := 0, value := 0,
                    script_pub_key :=
                      { script_type := "pubkeyhash", hex := "00",
                        address := some "addrA",
                        addresses := some ["addrB", "addrC"] } }] } :
        RpcTransaction).vin[i]? = some vin →
      r ∈ inputRecordsOf
          { txid := "t3",
            vin := [{ txid := none, vout := none, sequence := 0 },
                    { txid := some "t1", vout := some 0, sequence := 5 }],
            vout := [{ n := 0, value := 0,
                       script_pub_key :=
                         { script_type := "pubkeyhash", hex := "00",
                           address := some "addrA",
                           addresses := some ["addrB", "addrC"] } }] } →
      r.vin = (i : Int) →
      r.txid = "t3" ∧ vin.txid = some r.prev_txid ∧
        vin.vout = some r.prev_vout ∧ r.sequence = vin.sequence) :=
  C9_input_rows wBlock _ (by decide)

theorem lastBlockUpsertFor_eq_none (k : String) (ops : List WriteOp)
    (h : ∀ r, WriteOp.blockUpsert r ∉ ops) :
    lastBlockUpsertFor k ops = none := by
  induction ops with
  | nil => rfl
  | cons op rest ih =>
    simp only [lastBlockUpsertFor]
    rw [ih fun r hr => h r (List.mem_cons_of_mem op hr)]
    cases op with
    | blockUpsert r => exact absurd (List.mem_cons_self _ _) (h r)
    | txUpsert r => rfl
    | inputInsert r => rfl
    | outputInsert r => rfl

theorem no_blockUpsert_in_txSegments (block : RpcBlock) (r : BlockRecord) :
    WriteOp.blockUpsert r ∉ (block.tx.map (txOps block)).flatten := by
  intro hmem
  rw [List.mem_flatten] at hmem
  obtain ⟨l, hl, hop⟩ := hmem
  rw [List.mem_map] at hl
  obtain ⟨tx, htx, rfl⟩ := hl
  simp [txOps, rowOps] at hop

theorem persist_block_blocks_self (s : DbState) (block : RpcBlock) :
    (persist_block s block).blocks block.hash =
      some (blockRecordOf block) := by
  show ((persistTrace block).foldl applyOp s).blocks block.hash = _
  rw [foldl_applyOp_blocks]
  have h : lastBlockUpsertFor block.hash (persistTrace block) =
      some (blockRecordOf block) := by
    simp only [persistTrace, lastBlockUpsertFor]
    rw [lastBlockUpsertFor_eq_none block.hash _
      (fun r => no_blockUpsert_in_txSegments block r)]
    simp [blockRecordOf]
  rw [h]

/-- C10: when the previousblockhash field is absent, persist_block still
stores the block row, with prev_hash equal to the empty string rather than
null; the optionality of the decoded field is not preserved in the stored
record, whose prev_hash column is not nullable. -/
theorem C10_absent_prev_hash_stored_empty (s : DbState) (block : RpcBlock)
    (h : block.prev_hash = none) :
    (persist_block s block).blocks block.hash = some (blockRecordOf block) ∧
    (blockRecordOf block).prev_hash = "" :=
  ⟨persist_block_blocks_self s block, by simp [blockRecordOf, h]⟩

/-- Closed instance of C10 at a block with no previousblockhash. -/
theorem C10_absent_prev_hash_stored_empty_witness :
    (persist_block emptyDb genesisBlock).blocks genesisBlock.hash =
      some (blockRecordOf genesisBlock) ∧
    (blockRecordOf genesisBlock).prev_hash = "" :=
  C10_absent_prev_hash_stored_empty emptyDb genesisBlock rfl

/-! Theorems about the RPC client. -/

/-- C8: transport, HTTP-status and decode failures surface as Transport-class
errors; a decoded envelope with a non-null error field surfaces as a Protocol
error carrying the node message even when a result is also present; a null
error with an absent result is the Protocol error with message missing
result; and a null error with a present result yields that result. -/
theorem C8_call_error_taxonomy :
    (∀ (T : Type) (m : String),
      callResult (HttpOutcome.sendFailure m : HttpOutcome T) =
        Except.error (.http m)) ∧
    (∀ (T : Type) (st : Nat) (m : String),
      callResult (HttpOutcome.statusFailure st m : HttpOutcome T) =
        Except.error (.http m)) ∧
    (∀ (T : Type) (m : String),
      callResult (HttpOutcome.decodeFailure m : HttpOutcome T) =
        Except.error (.http m)) ∧
    (∀ (T : Type) (p : RpcResponse T) (e : RpcResponseError),
      p.error = some e →
      callResult (HttpOutcome.decoded p) = Except.error (.rpc e.message)) ∧
    (∀ (T : Type) (p : RpcResponse T), p.error = none → p.result = none →
      callResult (HttpOutcome.decoded p) =
        Except.error (.rpc "missing result")) ∧
    (∀ (T : Type) (p : RpcResponse T) (r : T), p.error = none →
      p.result = some r → callResult (HttpOutcome.decoded p) = Except.ok r) := by
  refine ⟨fun T m => rfl, fun T st m => rfl, fun T m => rfl, ?_, ?_, ?_⟩
  · intro T p e herr
    simp [callResult, herr]
  · intro T p herr hres
    simp [callResult, herr, hres]
  · intro T p r herr hres
    simp [callResult, herr, hres]

/-- Closed instance of C8 at concrete envelopes over Nat results: an error
member wins even though a result is present, and a null error with an absent
result is the missing-result Protocol error. -/
theorem C8_call_error_taxonomy_witness :
    callResult (HttpOutcome.decoded
      ({ result := some 3, error := some { message := "node says no" },
         id := some 1 } : RpcResponse Nat)) =
      Except.error (.rpc "node says no") ∧
    callResult (HttpOutcome.decoded
      ({ result := none, error := none, id := some 2 } : RpcResponse Nat)) =
      Except.error (.rpc "missing result") :=
  ⟨C8_call_error_taxonomy.2.2.2.1 Nat
      { result := some 3, error := some { message := "node says no" },
        id := some 1 } { message := "node says no" } rfl,
   C8_call_error_taxonomy.2.2.2.2.1 Nat
      { result := none, error := none, id := some 2 } rfl rfl⟩

end BlockchainIndexer
